import Mathlib

/-
Verification of the real-time chat backend (Django Channels) against its
natural-language specification.  The definitions below are a shallow
embedding of the Python sources under backend/: pure helper functions are
translated to Lean functions, cache-backed state is threaded explicitly,
and dynamically-typed cache payloads are modelled by an inductive type of
Python values.  Timestamps are modelled as integers: every operation the
code performs on them is addition, subtraction and comparison.
-/

namespace ChatApp

/-! ## Python value model

Cache entries (Django cache via pickle) can hold arbitrary Python values.
`Py` models the value shapes the system can store or defensively reads:
None, int, str, list and dict.  Dict keys are restricted to the hashable
scalar shapes (`PyKey`); lists and dicts are unhashable in Python and can
never be dict keys. -/

inductive PyKey where
  | none
  | int (n : Int)
  | str (s : String)
deriving DecidableEq

inductive Py where
  | none
  | int (n : Int)
  | str (s : String)
  | list (items : List Py)
  | dict (entries : List (PyKey × Py))

/-- Python `str()` on a hashable scalar: `str(None) = "None"`,
`str(5) = "5"`, `str(-3) = "-3"`, identity on strings. -/
def pyKeyStr : PyKey → String
  | PyKey.none => "None"
  | PyKey.int n => toString n
  | PyKey.str s => s

/-- Python `str.strip()`: drops leading and trailing whitespace.
Implemented by structural recursion over the character list so that
concrete instances reduce inside the kernel. -/
def pyStrip (s : String) : String :=
  ⟨((s.data.dropWhile Char.isWhitespace).reverse.dropWhile Char.isWhitespace).reverse⟩

/-- Python `d.get(k, default)` on a dict: first entry with an equal key,
else the default. -/
def pyGetD (entries : List (PyKey × Py)) (k : PyKey) (default : Py) : Py :=
  match entries.find? (fun p => p.1 = k) with
  | Option.none => default
  | Option.some p => p.2

/-- Python `v == s` for a string literal `s`: true only when `v` is an
equal string (no cross-type equality between str and the other shapes). -/
def pyEqStr : Py → String → Bool
  | Py.str s, t => s = t
  | _, _ => false

/-- Continues a digit run the way CPython `int()` does: single
underscores allowed between digits only. -/
def parseDigitsAux : Nat → List Char → Option Nat
  | acc, [] => Option.some acc
  | acc, '_' :: c :: cs =>
    if c.isDigit then parseDigitsAux (acc * 10 + (c.toNat - 48)) cs else Option.none
  | _, ['_'] => Option.none
  | acc, c :: cs =>
    if c.isDigit then parseDigitsAux (acc * 10 + (c.toNat - 48)) cs else Option.none

/-- Parses a digit run the way CPython `int()` does: nonempty, single
underscores allowed between digits only. -/
def parseDigits : List Char → Option Nat
  | [] => Option.none
  | c :: cs =>
    if c.isDigit then parseDigitsAux (c.toNat - 48) cs else Option.none

/-- Python `int(s)` on a string: strip surrounding whitespace, optional
sign, digit run; `Option.none` models the `ValueError` path. -/
def pyIntOfString (s : String) : Option Int :=
  match (pyStrip s).toList with
  | '+' :: cs => (parseDigits cs).map Int.ofNat
  | '-' :: cs => (parseDigits cs).map (fun n => -(n : Int))
  | cs => (parseDigits cs).map Int.ofNat

/-- Python `int(v)`: ints pass through, strings are parsed, every other
shape raises (`Option.none` models the TypeError/ValueError path). -/
def pyToInt : Py → Option Int
  | Py.int n => Option.some n
  | Py.str s => pyIntOfString s
  | _ => Option.none

/-! ## Association lists with Python dict update semantics -/

/-- Python `d[k] = v`: replaces the value in place when the key exists
(keeping its insertion position), otherwise appends. -/
def alistUpd (l : List (String × Int)) (k : String) (v : Int) : List (String × Int) :=
  if l.any (fun p => p.1 = k) then
    l.map (fun p => if p.1 = k then (k, v) else p)
  else
    l ++ [(k, v)]

/-- Python `d.get(k)`: the value of the first entry with key `k`. -/
def alistGet (l : List (String × Int)) (k : String) : Option Int :=
  (l.find? (fun p => p.1 = k)).map (fun p => p.2)

/-! ## Direct-inbox unread tracker (backend/chat/direct_inbox.py)

The shared-cache cell for one user is modelled as a single `Py` value;
`Py.none` is an absent key (`cache.get` returning None, `cache.delete`).
The `ttl_seconds` argument only sets the cache expiry of the written
entry and does not influence the stored value. -/

/-- Embeds `_normalize_slugs`: keeps only string items, strips them,
drops blanks and duplicates, preserving first-occurrence order. -/
def _normalize_slugs_aux : List Py → List String → List String
  | [], acc => acc
  | item :: rest, acc =>
    match item with
    | Py.str s0 =>
      let s := pyStrip s0
      if s = "" ∨ acc.contains s then _normalize_slugs_aux rest acc
      else _normalize_slugs_aux rest (acc ++ [s])
    | _ => _normalize_slugs_aux rest acc

/-- Embeds `_normalize_slugs` (backend/chat/direct_inbox.py lines 25-38). -/
def _normalize_slugs (value : List Py) : List String :=
  _normalize_slugs_aux value []

/-- Fold inside `_normalize_counts` for the dict case: each entry key is
passed through `str().strip()`, the raw value through `int()`; blank
slugs, unconvertible values and non-positive counts are skipped, the
rest assigned into the result dict. -/
def normDictAux : List (PyKey × Py) → List (String × Int) → List (String × Int)
  | [], acc => acc
  | (k, raw) :: rest, acc =>
    let slug := pyStrip (pyKeyStr k)
    if slug = "" then normDictAux rest acc
    else
      match pyToInt raw with
      | Option.none => normDictAux rest acc
      | Option.some c =>
        if c ≤ 0 then normDictAux rest acc
        else normDictAux rest (alistUpd acc slug c)

/-- Embeds `_normalize_counts` (backend/chat/direct_inbox.py lines 41-59):
a dict is filtered entrywise, a list becomes count-1 entries, anything
else is the empty map. -/
def _normalize_counts : Py → List (String × Int)
  | Py.dict entries => normDictAux entries []
  | Py.list xs => (_normalize_slugs xs).map (fun s => (s, 1))
  | _ => []

/-- The dict the unread functions return: dialogs, slugs, counts. -/
structure UnreadState where
  dialogs : Nat
  slugs : List String
  counts : List (String × Int)
deriving DecidableEq

/-- Encodes a normalized counts map back into the Python dict that
`cache.set` stores. -/
def encodeCounts (m : List (String × Int)) : Py :=
  Py.dict (m.map (fun p => (PyKey.str p.1, Py.int p.2)))

/-- Embeds `get_unread_slugs` (direct_inbox.py lines 62-64). -/
def get_unread_slugs (stored : Py) : List String :=
  (_normalize_counts stored).map Prod.fst

/-- Embeds `get_unread_state` (direct_inbox.py lines 67-74). -/
def get_unread_state (stored : Py) : UnreadState :=
  let counts := _normalize_counts stored
  ⟨counts.length, counts.map Prod.fst, counts⟩

/-- Embeds `mark_unread` (direct_inbox.py lines 77-89): returns the new
unread state and the value written back to the cache cell. -/
def mark_unread (room_slug : String) (ttl_seconds : Int) (stored : Py) :
    UnreadState × Py :=
  let _ := ttl_seconds
  let slug := pyStrip room_slug
  if slug = "" then (get_unread_state stored, stored)
  else
    let current0 := _normalize_counts stored
    let current := alistUpd current0 slug ((alistGet current0 slug).getD 0 + 1)
    (⟨current.length, current.map Prod.fst, current⟩, encodeCounts current)

/-- Embeds `mark_read` (direct_inbox.py lines 92-107): pops the slug and
deletes the whole cache key when the map becomes empty. -/
def mark_read (room_slug : String) (ttl_seconds : Int) (stored : Py) :
    UnreadState × Py :=
  let _ := ttl_seconds
  let slug := pyStrip room_slug
  if slug = "" then (get_unread_state stored, stored)
  else
    let current := (_normalize_counts stored).filter (fun p => ¬ p.1 = slug)
    let written := if current = [] then Py.none else encodeCounts current
    (⟨current.length, current.map Prod.fst, current⟩, written)

/-! ## Active-room marker (direct_inbox.py lines 110-146)

The cache cell is `Option (Py × Int)`: the stored value plus its expiry
instant; `cache.get` yields None once the expiry has passed. -/

/-- Embeds `set_active_room`: unconditionally stores the marker dict. -/
def set_active_room (room_slug conn_id : String) (ttl_seconds now : Int)
    (cell : Option (Py × Int)) : Option (Py × Int) :=
  let _ := cell
  Option.some
    (Py.dict [(PyKey.str "roomSlug", Py.str room_slug),
              (PyKey.str "connId", Py.str conn_id)],
     now + ttl_seconds)

/-- Embeds `touch_active_room` (direct_inbox.py lines 121-127): refreshes
the expiry only when the stored value is a dict whose connId equals the
callers connection id. -/
def touch_active_room (conn_id : String) (ttl_seconds now : Int)
    (cell : Option (Py × Int)) : Option (Py × Int) :=
  match cell with
  | Option.none => Option.none
  | Option.some (v, expiry) =>
    if expiry ≤ now then cell
    else
      match v with
      | Py.dict entries =>
        if pyEqStr (pyGetD entries (PyKey.str "connId") Py.none) conn_id then
          Option.some (v, now + ttl_seconds)
        else cell
      | _ => cell

/-- Embeds `clear_active_room` (direct_inbox.py lines 130-139):
`Option.none` for the conn argument is the unconditional-delete call,
a string deletes only when the stored connId matches. -/
def clear_active_room (conn_id : Option String) (now : Int)
    (cell : Option (Py × Int)) : Option (Py × Int) :=
  match conn_id with
  | Option.none => Option.none
  | Option.some c =>
    match cell with
    | Option.none => Option.none
    | Option.some (v, expiry) =>
      if expiry ≤ now then cell
      else
        match v with
        | Py.dict entries =>
          if pyEqStr (pyGetD entries (PyKey.str "connId") Py.none) c then
            Option.none
          else cell
        | _ => cell

/-! ## Data model (backend/chat/models.py) -/

inductive RoomKind where
  | PUBLIC
  | PRIVATE
  | DIRECT
deriving DecidableEq

/-- A `Room` row: slug, display name, kind, optional direct pair key and
the id of the creating user.  Rooms are identified by their unique slug. -/
structure RoomM where
  slug : String
  name : String
  kind : RoomKind
  direct_pair_key : Option String
  created_by : Option Int
deriving DecidableEq

inductive Role where
  | OWNER
  | ADMIN
  | MEMBER
  | VIEWER
  | BLOCKED
deriving DecidableEq

/-- A `ChatRole` row, keyed by room slug and user id. -/
structure RoleRow where
  room : String
  user : Int
  role : Role
deriving DecidableEq

/-- A user as the access checks see it; `AnonymousUser` carries
`is_authenticated = false`. -/
structure UserM where
  id : Int
  username : String
  is_authenticated : Bool
deriving DecidableEq

/-! ## Access control (backend/chat/access.py) -/

def READ_ROLES : List Role := [Role.OWNER, Role.ADMIN, Role.MEMBER, Role.VIEWER]

def WRITE_ROLES : List Role := [Role.OWNER, Role.ADMIN, Role.MEMBER]

/-- True when the pair key is Python-falsy (absent or empty). -/
def pairKeyFalsy : Option String → Bool
  | Option.none => true
  | Option.some s => s = ""

/-- Python `s.split(sep, 1)` when `sep` occurs in `s`: the part before
the first `:` and everything after it (structural over the character
list). -/
def splitFirstColon (s : String) : String × String :=
  let pre := s.data.takeWhile (fun c => ¬ c = ':')
  (⟨pre⟩, ⟨s.data.drop (pre.length + 1)⟩)

/-- Embeds `_direct_contains_user` (access.py lines 20-29). -/
def _direct_contains_user (room : RoomM) (user : UserM) : Bool :=
  if pairKeyFalsy room.direct_pair_key ∨ user.is_authenticated = false then false
  else
    let dpk := room.direct_pair_key.getD ""
    if ¬ dpk.data.contains ':' then false
    else
      let parts := splitFirstColon dpk
      match pyIntOfString parts.1, pyIntOfString parts.2 with
      | Option.some a, Option.some b => user.id = a ∨ user.id = b
      | _, _ => false

/-- Embeds `get_user_role` (access.py lines 32-39): the role of the first
`ChatRole` row matching the room and user, None for unauthenticated. -/
def get_user_role (db : List RoleRow) (room : RoomM) (user : UserM) : Option Role :=
  if user.is_authenticated = false then Option.none
  else (db.find? (fun rr => rr.room = room.slug ∧ rr.user = user.id)).map (fun rr => rr.role)

/-- Embeds `can_read` (access.py lines 42-53). -/
def can_read (db : List RoleRow) (room : RoomM) (user : UserM) : Bool :=
  if room.kind = RoomKind.PUBLIC then true
  else if user.is_authenticated = false then false
  else if room.kind = RoomKind.DIRECT ∧ ¬ _direct_contains_user room user then false
  else
    match get_user_role db room user with
    | Option.some r => r ∈ READ_ROLES
    | Option.none => false

/-- Embeds `can_write` (access.py lines 56-67). -/
def can_write (db : List RoleRow) (room : RoomM) (user : UserM) : Bool :=
  if room.kind = RoomKind.PUBLIC then user.is_authenticated
  else if user.is_authenticated = false then false
  else if room.kind = RoomKind.DIRECT ∧ ¬ _direct_contains_user room user then false
  else
    match get_user_role db room user with
    | Option.some r => r ∈ WRITE_ROLES
    | Option.none => false

/-- Embeds `ensure_can_read_or_404` (access.py lines 70-72): the error
value models the raised `Http404`. -/
def ensure_can_read_or_404 (db : List RoleRow) (room : RoomM) (user : UserM) :
    Except String Unit :=
  if can_read db room user then Except.ok () else Except.error "Not found"

/-- Reads the direct pair key the way `_direct_contains_user` does:
`Option.some (a, b)` exactly when the key is present, contains a colon,
and both sides convert with Python `int()`.  Used to state what the spec
calls a well-formed two-integer pair key. -/
def parse_direct_pair (dpk : Option String) : Option (Int × Int) :=
  if pairKeyFalsy dpk then Option.none
  else
    let s := dpk.getD ""
    if ¬ s.data.contains ':' then Option.none
    else
      let parts := splitFirstColon s
      match pyIntOfString parts.1, pyIntOfString parts.2 with
      | Option.some a, Option.some b => Option.some (a, b)
      | _, _ => Option.none

/-! ## Chat room session (backend/chat/consumers.py, ChatConsumer)

The cache cell `rl:chat:<user id>` is modelled as `Option RateBucket`
(`Option.none` is a missing or expired entry); time is an integer. -/

/-- The dict `{"count": ..., "reset": ...}` the message rate limiter
stores per user. -/
structure RateBucket where
  count : Int
  reset : Int
deriving DecidableEq

/-- Embeds `ChatConsumer._rate_limited` (consumers.py lines 238-252):
returns whether the send is rejected, plus the new cache cell. -/
def _rate_limited (limit window now : Int) (cell : Option RateBucket) :
    Bool × Option RateBucket :=
  match cell with
  | Option.none => (false, Option.some ⟨1, now + window⟩)
  | Option.some b =>
    if b.reset ≤ now then (false, Option.some ⟨1, now + window⟩)
    else if limit ≤ b.count then (true, cell)
    else (false, Option.some ⟨b.count + 1, b.reset⟩)

/-- What one inbound chat frame results in: nothing sent back, an error
event, or an accepted message that is persisted and fanned out. -/
inductive RecvOutcome where
  | silent
  | errorEvent (code : String)
  | accepted (message : String)
deriving DecidableEq

/-- Embeds the decision logic of `ChatConsumer.receive` (consumers.py
lines 100-149).  `frame` is the JSON parse result (`Option.none` is a
decode error; frames are JSON objects).  `canWrite` is the outcome of
the `can_write` database check for this room and user.  `accepted`
covers the persistence (`save_message`) and `group_send` tail of the
method, which only runs on that path. -/
def receiveStep (maxLen : Nat) (limit window : Int) (user : UserM)
    (canWrite : Bool) (now : Int) (rl : Option RateBucket)
    (frame : Option (List (PyKey × Py))) : RecvOutcome × Option RateBucket :=
  match frame with
  | Option.none => (RecvOutcome.silent, rl)
  | Option.some obj =>
    match pyGetD obj (PyKey.str "message") (Py.str "") with
    | Py.str raw =>
      let message := pyStrip raw
      if message = "" then (RecvOutcome.silent, rl)
      else if maxLen < message.length then
        (RecvOutcome.errorEvent "message_too_long", rl)
      else if user.is_authenticated = false then (RecvOutcome.silent, rl)
      else if ¬ canWrite then (RecvOutcome.errorEvent "forbidden", rl)
      else
        let r := _rate_limited limit window now rl
        if r.1 then (RecvOutcome.errorEvent "rate_limited", r.2)
        else (RecvOutcome.accepted message, r.2)
    | _ => (RecvOutcome.silent, rl)

/-- The slug of the singleton public room.  The `constants` module is
absent from the sources, but the in-source migration
`chat/migrations/0009_seed_room_kind_and_roles.py` pins the value. -/
def PUBLIC_ROOM_SLUG : String := "public"

/-- Display name of the public room (value immaterial to every claim). -/
def PUBLIC_ROOM_NAME : String := "Public"

/-- Embeds `_is_valid_room_slug` under the default setting
`CHAT_ROOM_SLUG_REGEX = [A-Za-z0-9_-] with braces 3,50 anchored`:
length between 3 and 50, characters from the ASCII slug alphabet. -/
def _is_valid_room_slug (s : String) : Bool :=
  3 ≤ s.length ∧ s.length ≤ 50 ∧
    s.toList.all (fun c => c.isAlphanum ∨ c = '_' ∨ c = '-')

/-- Embeds `ChatConsumer._load_room` (consumers.py lines 189-209): the
public room is created or repaired in place, any other slug is a plain
lookup.  Returns the loaded room and the updated room table. -/
def _load_room (rooms : List RoomM) (slug : String) : Option RoomM × List RoomM :=
  if slug = PUBLIC_ROOM_SLUG then
    match rooms.find? (fun r => r.slug = PUBLIC_ROOM_SLUG) with
    | Option.some r =>
      let r' := { r with kind := RoomKind.PUBLIC, direct_pair_key := Option.none }
      (Option.some r',
       rooms.map (fun x => if x.slug = PUBLIC_ROOM_SLUG then r' else x))
    | Option.none =>
      let r : RoomM :=
        ⟨PUBLIC_ROOM_SLUG, PUBLIC_ROOM_NAME, RoomKind.PUBLIC, Option.none, Option.none⟩
      (Option.some r, rooms ++ [r])
  else (rooms.find? (fun r => r.slug = slug), rooms)

/-- How a connection attempt ends: closed with a status code, or
accepted and subscribed to the given fanout group. -/
inductive ConnectResult where
  | closed (code : Nat)
  | accepted (group : String)
deriving DecidableEq

/-- Embeds `ChatConsumer.connect` (consumers.py lines 58-86): slug
validation, room resolution, then the `can_read` gate; 4404 for invalid
or missing rooms, 4403 for denied read access.  Rooms are identified by
slug in the fanout group name. -/
def chatConnect (db : List RoleRow) (rooms : List RoomM) (room_slug : String)
    (user : UserM) : ConnectResult × List RoomM :=
  if room_slug ≠ PUBLIC_ROOM_SLUG ∧ ¬ _is_valid_room_slug room_slug then
    (ConnectResult.closed 4404, rooms)
  else
    let loaded := _load_room rooms room_slug
    match loaded.1 with
    | Option.none => (ConnectResult.closed 4404, loaded.2)
    | Option.some room =>
      if ¬ can_read db room user then (ConnectResult.closed 4403, loaded.2)
      else (ConnectResult.accepted ("chat_room_" ++ room.slug), loaded.2)

/-! ## Presence aggregator snapshots (consumers.py, PresenceConsumer)

A presence map is an association list from identity (username or guest
IP) to an entry; guest entries simply never carry a profile image. -/

/-- One presence entry: live-connection count, last-activity time and
the grace expiry instant (0 when no grace window is active). -/
structure PresenceEntry where
  count : Int
  last_seen : Int
  grace_until : Int
  profileImage : Option String
deriving DecidableEq

/-- The keep condition both snapshot readers apply to an entry: a
positive count within the TTL, or a non-positive count whose grace
instant is set (truthy), still ahead, and still within the TTL. -/
def keepPresence (ttl now : Int) (e : PresenceEntry) : Bool :=
  (0 < e.count ∧ now - e.last_seen ≤ ttl) ∨
    (e.count ≤ 0 ∧ ¬ e.grace_until = 0 ∧ now < e.grace_until ∧
      now - e.last_seen ≤ ttl)

/-- Embeds `PresenceConsumer._get_online` (consumers.py lines 677-703):
returns the online payload (username and profile image per surviving
entry), the cleaned map, and whether the cleaned map was written back. -/
def _get_online (ttl now : Int) (data : List (String × PresenceEntry)) :
    List (String × Option String) × List (String × PresenceEntry) × Bool :=
  let cleaned := data.filter (fun p => keepPresence ttl now p.2)
  (cleaned.map (fun p => (p.1, p.2.profileImage)), cleaned, ¬ cleaned = data)

/-- Embeds `PresenceConsumer._get_guest_count` (consumers.py lines
742-765): the surviving-entry count, the cleaned map, and whether the
cleaned map was written back. -/
def _get_guest_count (ttl now : Int) (data : List (String × PresenceEntry)) :
    Nat × List (String × PresenceEntry) × Bool :=
  let cleaned := data.filter (fun p => keepPresence ttl now p.2)
  (cleaned.length, cleaned, ¬ cleaned = data)

/-! ## Direct-room start (backend/chat/api.py)

The HMAC-SHA256 digest comes from the Python standard library, outside
this repository; it is a parameter `digest : String → String` of the
slug computation, which the source truncates to 24 hex characters. -/

/-- Embeds `_direct_pair_key` (api.py lines 83-86): the sorted low:high
id pair. -/
def _direct_pair_key (user_a_id user_b_id : Int) : String :=
  toString (min user_a_id user_b_id) ++ ":" ++ toString (max user_a_id user_b_id)

/-- Embeds `_direct_room_slug` (api.py lines 89-97) over an abstract
keyed digest. -/
def _direct_room_slug (digest : String → String) (pair_key : String) : String :=
  "dm_" ++ (digest pair_key).take 24

/-- The self-heal block of `_create_or_get_direct_room` (api.py lines
160-171): repair kind, then an empty slug, then an empty name. -/
def _repair_direct_room (base : RoomM) (slug defaultName : String) : RoomM :=
  let r1 := if base.kind = RoomKind.DIRECT then base else { base with kind := RoomKind.DIRECT }
  let r2 := if r1.slug = "" then { r1 with slug := slug } else r1
  if r2.name = "" then { r2 with name := defaultName } else r2

/-- Embeds `_create_or_get_direct_room` (api.py lines 148-173): look up
by pair key, create with the given defaults when absent, then self-heal
kind, slug and name, saving the repaired row.  Returns the room, the
created flag, and the updated room table. -/
def _create_or_get_direct_room (rooms : List RoomM) (initiator target : UserM)
    (pair_key slug : String) : (RoomM × Bool) × List RoomM :=
  let found := rooms.find? (fun r => r.direct_pair_key = Option.some pair_key)
  let defaultName := initiator.username ++ " - " ++ target.username
  let base := found.getD
    ⟨slug, defaultName, RoomKind.DIRECT, Option.some pair_key, Option.some initiator.id⟩
  let r3 := _repair_direct_room base slug defaultName
  match found with
  | Option.none => ((r3, true), rooms ++ [r3])
  | Option.some _ =>
    ((r3, false),
     rooms.map (fun x => if x.direct_pair_key = Option.some pair_key then r3 else x))

/-- The room-creating core of the `direct_start` view (api.py lines
313-317): derive the pair key and slug for the two users, then create
or reuse the room.  Returns the slug of the resulting room, the created
flag, and the updated room table. -/
def directRoomStart (digest : String → String) (rooms : List RoomM)
    (initiator target : UserM) : (String × Bool) × List RoomM :=
  let pair_key := _direct_pair_key initiator.id target.id
  let slug := _direct_room_slug digest pair_key
  let r := _create_or_get_direct_room rooms initiator target pair_key slug
  ((r.1.1.slug, r.1.2), r.2)

/-! ## Persistent security rate limiter
(backend/chat_app_django/security/rate_limit.py) -/

/-- Embeds `RateLimitPolicy` (rate_limit.py lines 14-27). -/
structure RateLimitPolicy where
  limit : Int
  window_seconds : Int
deriving DecidableEq

/-- Embeds `RateLimitPolicy.normalized_limit`. -/
def RateLimitPolicy.normalized_limit (p : RateLimitPolicy) : Int :=
  max 1 p.limit

/-- Embeds `RateLimitPolicy.normalized_window`. -/
def RateLimitPolicy.normalized_window (p : RateLimitPolicy) : Int :=
  max 1 p.window_seconds

/-- One `SecurityRateLimitBucket` row. -/
structure SecBucket where
  scope_key : String
  count : Int
  reset_at : Int
deriving DecidableEq

/-- Embeds `DbRateLimiter.is_limited` (rate_limit.py lines 33-78) on the
bucket table: an empty scope key is rejected before any bucket access;
otherwise the bucket is created, reset, saturated or incremented. -/
def DbRateLimiter.is_limited (scope_key : String) (policy : RateLimitPolicy)
    (now : Int) (buckets : List SecBucket) : Bool × List SecBucket :=
  if scope_key = "" then (true, buckets)
  else
    let limit := policy.normalized_limit
    let window := policy.normalized_window
    let next_reset_at := now + window
    match buckets.find? (fun b => b.scope_key = scope_key) with
    | Option.none => (false, buckets ++ [⟨scope_key, 1, next_reset_at⟩])
    | Option.some b =>
      if b.reset_at ≤ now then
        (false, buckets.map (fun x =>
          if x.scope_key = scope_key then { x with count := 1, reset_at := next_reset_at } else x))
      else if limit ≤ b.count then (true, buckets)
      else
        (false, buckets.map (fun x =>
          if x.scope_key = scope_key then { x with count := x.count + 1 } else x))

/-! ## Iteration helpers for the claims -/

/-- The cache cell after `n` successive `mark_unread` calls for the same
room slug. -/
def markUnreadN (s : String) (ttl : Int) : Nat → Py → Py
  | 0, stored => stored
  | n + 1, stored => (mark_unread s ttl (markUnreadN s ttl n stored)).2

/-- Runs `_rate_limited` once per send instant, collecting the limited
flags and threading the cache cell. -/
def rlRun (limit window : Int) : List Int → Option RateBucket → List Bool × Option RateBucket
  | [], cell => ([], cell)
  | t :: ts, cell =>
    let step := _rate_limited limit window t cell
    let tail := rlRun limit window ts step.2
    (step.1 :: tail.1, tail.2)

/-! # Theorems -/

/-- C10: the persistent security rate limiter fails closed on bad input:
with an empty scope key, `DbRateLimiter.is_limited` reports the request
as limited and returns the bucket table untouched, for every policy,
instant and table — so no bucket is read, created or modified. -/
theorem db_rate_limiter_empty_scope_fails_closed
    (policy : RateLimitPolicy) (now : Int) (buckets : List SecBucket) :
    DbRateLimiter.is_limited "" policy now buckets = (true, buckets) := by
  simp [DbRateLimiter.is_limited]

/-- C7: when the stored active-room marker carries a connection id other
than `c`, both `touch_active_room` and `clear_active_room` with `c`
return the cell exactly as it was: the marker is neither modified nor
deleted. -/
theorem active_room_marker_mismatch_no_op
    (c c' : String) (ttl now expiry : Int) (entries : List (PyKey × Py))
    (hconn : pyGetD entries (PyKey.str "connId") Py.none = Py.str c')
    (hne : c' ≠ c) :
    touch_active_room c ttl now (Option.some (Py.dict entries, expiry))
      = Option.some (Py.dict entries, expiry)
    ∧ clear_active_room (Option.some c) now (Option.some (Py.dict entries, expiry))
      = Option.some (Py.dict entries, expiry) := by
  unfold touch_active_room clear_active_room
  by_cases hexp : expiry ≤ now
  · simp [hexp]
  · simp [hexp, hconn, pyEqStr, hne]

/-- C7 witness: a concrete live marker owned by connection c1 survives a
touch and a clear issued by connection c2. -/
theorem active_room_marker_mismatch_no_op_witness :
    touch_active_room "c2" 90 0
      (Option.some (Py.dict [(PyKey.str "roomSlug", Py.str "dm_r"),
                             (PyKey.str "connId", Py.str "c1")], 50))
      = Option.some (Py.dict [(PyKey.str "roomSlug", Py.str "dm_r"),
                              (PyKey.str "connId", Py.str "c1")], 50)
    ∧ clear_active_room (Option.some "c2") 0
      (Option.some (Py.dict [(PyKey.str "roomSlug", Py.str "dm_r"),
                             (PyKey.str "connId", Py.str "c1")], 50))
      = Option.some (Py.dict [(PyKey.str "roomSlug", Py.str "dm_r"),
                              (PyKey.str "connId", Py.str "c1")], 50) :=
  active_room_marker_mismatch_no_op "c2" "c1" 90 0 50
    [(PyKey.str "roomSlug", Py.str "dm_r"), (PyKey.str "connId", Py.str "c1")]
    (by rfl) (by decide)

/-- C2 counterexample: an authenticated user without any role connecting
to an existing private room is closed with status 4403 (the forbidden
code), not 4404 (the not-found code) — the claim that the chat-room
session closes with the not-found code is false on this input. -/
theorem chat_connect_denied_read_counterexample :
    (chatConnect []
      [⟨"private123", "private", RoomKind.PRIVATE, Option.none, Option.none⟩]
      "private123" ⟨5, "outsider", true⟩).1 = ConnectResult.closed 4403
    ∧ ConnectResult.closed 4403 ≠ ConnectResult.closed 4404 := by
  constructor
  · rfl
  · decide

/-- C2 amended: a connection to an existing non-public room whose
`can_read` check fails is closed with the forbidden status code 4403;
the not-found masking lives in the HTTP-side wrapper
`ensure_can_read_or_404`, which does signal a not-found failure on
denied read access. -/
theorem chat_connect_denied_read_closes_4403
    (db : List RoleRow) (rooms : List RoomM) (slug : String)
    (user : UserM) (room : RoomM)
    (hpub : slug ≠ PUBLIC_ROOM_SLUG)
    (hvalid : _is_valid_room_slug slug = true)
    (hfind : rooms.find? (fun r => r.slug = slug) = Option.some room)
    (hread : can_read db room user = false) :
    (chatConnect db rooms slug user).1 = ConnectResult.closed 4403
    ∧ ensure_can_read_or_404 db room user = Except.error "Not found" := by
  unfold chatConnect _load_room ensure_can_read_or_404
  simp [hpub, hvalid, hfind, hread]

/-- C2 amended witness: the concrete unauthorized private-room connect
closes 4403 while the HTTP wrapper reports not-found. -/
theorem chat_connect_denied_read_closes_4403_witness :
    (chatConnect []
      [⟨"private123", "private", RoomKind.PRIVATE, Option.none, Option.none⟩]
      "private123" ⟨5, "outsider", true⟩).1 = ConnectResult.closed 4403
    ∧ ensure_can_read_or_404 []
        ⟨"private123", "private", RoomKind.PRIVATE, Option.none, Option.none⟩
        ⟨5, "outsider", true⟩ = Except.error "Not found" :=
  chat_connect_denied_read_closes_4403 []
    [⟨"private123", "private", RoomKind.PRIVATE, Option.none, Option.none⟩]
    "private123" ⟨5, "outsider", true⟩
    ⟨"private123", "private", RoomKind.PRIVATE, Option.none, Option.none⟩
    (by decide) (by decide) (by rfl) (by rfl)

/-- C5 counterexample: an unauthenticated user sending an over-length
message body is answered with a `message_too_long` error event — the
length check runs before the authentication check, so the claim that no
error event of any kind is ever sent back is false on this input. -/
theorem receive_unauthenticated_counterexample :
    (receiveStep 10 20 10 ⟨5, "anon", false⟩ true 0 Option.none
      (Option.some [(PyKey.str "message", Py.str "xxxxxxxxxxx")])).1
      = RecvOutcome.errorEvent "message_too_long"
    ∧ RecvOutcome.errorEvent "message_too_long" ≠ RecvOutcome.silent := by
  constructor
  · rfl
  · decide

/-- C5 amended: a frame from an unauthenticated user is never persisted
or published (never accepted), never earns a forbidden or rate-limited
error, and leaves the rate-limit cell untouched; every such frame is
silently dropped except an over-length message body, which is answered
with `message_too_long` before the authentication check. -/
theorem receive_unauthenticated_dropped
    (maxLen : Nat) (limit window now : Int) (user : UserM) (canWrite : Bool)
    (rl : Option RateBucket) (frame : Option (List (PyKey × Py)))
    (hanon : user.is_authenticated = false) :
    (receiveStep maxLen limit window user canWrite now rl frame).2 = rl
    ∧ (∀ m, (receiveStep maxLen limit window user canWrite now rl frame).1
        ≠ RecvOutcome.accepted m)
    ∧ (receiveStep maxLen limit window user canWrite now rl frame).1
        ≠ RecvOutcome.errorEvent "forbidden"
    ∧ (receiveStep maxLen limit window user canWrite now rl frame).1
        ≠ RecvOutcome.errorEvent "rate_limited"
    ∧ ((receiveStep maxLen limit window user canWrite now rl frame).1
        = RecvOutcome.silent
      ∨ (receiveStep maxLen limit window user canWrite now rl frame).1
        = RecvOutcome.errorEvent "message_too_long") := by
  rcases frame with _ | obj
  · simp [receiveStep]
  · rcases hm : pyGetD obj (PyKey.str "message") (Py.str "") with _ | n | raw | items | es
    · simp [receiveStep, hm]
    · simp [receiveStep, hm]
    · simp only [receiveStep, hm]
      split_ifs with h1 h2 <;> simp_all
    · simp [receiveStep, hm]
    · simp [receiveStep, hm]

/-- C5 amended witness: a concrete anonymous in-length message is
silently dropped with the rate cell untouched. -/
theorem receive_unauthenticated_dropped_witness :
    (receiveStep 1000 20 10 ⟨5, "anon", false⟩ true 0 Option.none
      (Option.some [(PyKey.str "message", Py.str "hello")])).2 = Option.none
    ∧ ((receiveStep 1000 20 10 ⟨5, "anon", false⟩ true 0 Option.none
        (Option.some [(PyKey.str "message", Py.str "hello")])).1
        = RecvOutcome.silent
      ∨ (receiveStep 1000 20 10 ⟨5, "anon", false⟩ true 0 Option.none
        (Option.some [(PyKey.str "message", Py.str "hello")])).1
        = RecvOutcome.errorEvent "message_too_long") :=
  ⟨(receive_unauthenticated_dropped 1000 20 10 0 ⟨5, "anon", false⟩ true
      Option.none (Option.some [(PyKey.str "message", Py.str "hello")])
      (by rfl)).1,
   (receive_unauthenticated_dropped 1000 20 10 0 ⟨5, "anon", false⟩ true
      Option.none (Option.some [(PyKey.str "message", Py.str "hello")])
      (by rfl)).2.2.2.2⟩

/-- Relates the boolean membership test of `_direct_contains_user` to
the parsed pair key. -/
theorem direct_contains_iff (room : RoomM) (user : UserM) :
    _direct_contains_user room user = true ↔
      (user.is_authenticated = true ∧
        ∃ a b, parse_direct_pair room.direct_pair_key = Option.some (a, b) ∧
          (user.id = a ∨ user.id = b)) := by
  unfold _direct_contains_user parse_direct_pair
  by_cases hf : pairKeyFalsy room.direct_pair_key
  · simp [hf]
  · by_cases hc : ':' ∈ (room.direct_pair_key.getD "").data
    · by_cases ha : user.is_authenticated
      · rcases h1 : pyIntOfString (splitFirstColon (room.direct_pair_key.getD "")).1
          with _ | a <;>
        rcases h2 : pyIntOfString (splitFirstColon (room.direct_pair_key.getD "")).2
          with _ | b <;>
        simp [hf, ha, hc, h1, h2]
        constructor
        · intro h
          exact ⟨a, b, ⟨rfl, rfl⟩, h⟩
        · rintro ⟨a1, b1, ⟨ha1, hb1⟩, h⟩
          rw [ha1, hb1]
          exact h
      · simp [hf, ha]
    · simp [hf, hc]

/-- C1: for a DIRECT room, `can_read` is true exactly when the user is
authenticated, the pair key parses to two integers one of which is the
user id, and the first role row for (room, user) is in `READ_ROLES`;
and whenever the pair key is missing or malformed, `can_read` is false
regardless of any role rows. -/
theorem can_read_direct_iff (db : List RoleRow) (room : RoomM) (user : UserM)
    (hkind : room.kind = RoomKind.DIRECT) :
    (can_read db room user = true ↔
      (user.is_authenticated = true ∧
        (∃ a b, parse_direct_pair room.direct_pair_key = Option.some (a, b) ∧
          (user.id = a ∨ user.id = b)) ∧
        (∃ r, get_user_role db room user = Option.some r ∧ r ∈ READ_ROLES)))
    ∧ (parse_direct_pair room.direct_pair_key = Option.none →
        can_read db room user = false) := by
  have hnotpub : ¬ room.kind = RoomKind.PUBLIC := by rw [hkind]; decide
  constructor
  · by_cases ha : user.is_authenticated
    · by_cases hdc : _direct_contains_user room user = true
      · have hpair := (direct_contains_iff room user).mp hdc
        rcases hr : get_user_role db room user with _ | r
        · simp [can_read, hnotpub, ha, hkind, hdc, hr, hpair.2]
        · simp [can_read, hnotpub, ha, hkind, hdc, hr, hpair.2]
      · have hpair : ¬ (user.is_authenticated = true ∧
            ∃ a b, parse_direct_pair room.direct_pair_key = Option.some (a, b) ∧
              (user.id = a ∨ user.id = b)) :=
          fun h => hdc ((direct_contains_iff room user).mpr h)
        simp only [eq_true ha, true_and] at hpair
        simp [can_read, hnotpub, ha, hkind, hdc, hpair]
    · simp [can_read, hnotpub, ha]
  · intro hparse
    by_cases ha : user.is_authenticated
    · have hdc : ¬ _direct_contains_user room user = true := by
        intro h
        rcases ((direct_contains_iff room user).mp h).2 with ⟨a, b, hab, _⟩
        rw [hparse] at hab
        exact Option.noConfusion hab
      simp [can_read, hnotpub, ha, hkind, hdc]
    · simp [can_read, hnotpub, ha]

/-- C1 witness: user 1 with a MEMBER row on a direct room keyed 1:2 can
read it, while user 3 with a forged MEMBER row on the same room cannot,
and a malformed pair key 1:2:3 denies even the keyed member. -/
theorem can_read_direct_iff_witness :
    can_read [⟨"dm_ab", 1, Role.MEMBER⟩, ⟨"dm_ab", 3, Role.MEMBER⟩]
      ⟨"dm_ab", "dm", RoomKind.DIRECT, Option.some "1:2", Option.none⟩
      ⟨1, "alice", true⟩ = true
    ∧ can_read [⟨"dm_ab", 1, Role.MEMBER⟩, ⟨"dm_ab", 3, Role.MEMBER⟩]
      ⟨"dm_ab", "dm", RoomKind.DIRECT, Option.some "1:2", Option.none⟩
      ⟨3, "mallory", true⟩ = false
    ∧ can_read [⟨"dm_bad", 1, Role.MEMBER⟩]
      ⟨"dm_bad", "dm", RoomKind.DIRECT, Option.some "1:2:3", Option.none⟩
      ⟨1, "alice", true⟩ = false := by
  refine ⟨?_, ?_, ?_⟩
  · exact (can_read_direct_iff [⟨"dm_ab", 1, Role.MEMBER⟩, ⟨"dm_ab", 3, Role.MEMBER⟩]
      ⟨"dm_ab", "dm", RoomKind.DIRECT, Option.some "1:2", Option.none⟩
      ⟨1, "alice", true⟩ rfl).1.mpr
      ⟨rfl, ⟨1, 2, by decide, Or.inl rfl⟩, ⟨Role.MEMBER, by decide, by decide⟩⟩
  · have h := (can_read_direct_iff [⟨"dm_ab", 1, Role.MEMBER⟩, ⟨"dm_ab", 3, Role.MEMBER⟩]
      ⟨"dm_ab", "dm", RoomKind.DIRECT, Option.some "1:2", Option.none⟩
      ⟨3, "mallory", true⟩ rfl).1
    by_cases hc : can_read [⟨"dm_ab", 1, Role.MEMBER⟩, ⟨"dm_ab", 3, Role.MEMBER⟩]
      ⟨"dm_ab", "dm", RoomKind.DIRECT, Option.some "1:2", Option.none⟩
      ⟨3, "mallory", true⟩ = true
    · rcases (h.mp hc).2.1 with ⟨a, b, hab, hid⟩
      have hab' : Option.some (a, b) = Option.some ((1 : Int), (2 : Int)) := by
        rw [← hab]; decide
      have ha1 : a = 1 := congrArg Prod.fst (Option.some.inj hab')
      have hb1 : b = 2 := congrArg Prod.snd (Option.some.inj hab')
      rw [ha1, hb1] at hid
      rcases hid with h3 | h3 <;> exact absurd h3 (by decide)
    · simpa using hc
  · exact (can_read_direct_iff [⟨"dm_bad", 1, Role.MEMBER⟩]
      ⟨"dm_bad", "dm", RoomKind.DIRECT, Option.some "1:2:3", Option.none⟩
      ⟨1, "alice", true⟩ rfl).2 (by decide)

/-- Normalizing the stored encoding of a one-slug counts map gives that
map back, provided the slug is strip-fixed and non-blank and the count
positive. -/
theorem normalize_encode_singleton (s : String) (c : Int)
    (hs : pyStrip s = s) (hne : s ≠ "") (hc : 0 < c) :
    _normalize_counts (encodeCounts [(s, c)]) = [(s, c)] := by
  simp [encodeCounts, _normalize_counts, normDictAux, pyKeyStr, pyToInt,
    hs, hne, not_le.mpr hc, alistUpd]

/-- After `n + 1` marks of the same slug starting from an empty cell,
the stored value is the one-entry dict counting `n + 1`. -/
theorem markUnreadN_closed_form (s : String) (ttl : Int)
    (hs : pyStrip s = s) (hne : s ≠ "") :
    ∀ n : Nat, markUnreadN s ttl (n + 1) Py.none
      = encodeCounts [(s, ((n : Int) + 1))] := by
  intro n
  induction n with
  | zero =>
    simp [markUnreadN, mark_unread, hs, hne, _normalize_counts, alistGet,
      alistUpd]
  | succ m ih =>
    show (mark_unread s ttl (markUnreadN s ttl (m + 1) Py.none)).2 = _
    rw [ih]
    have hnorm := normalize_encode_singleton s ((m : Int) + 1) hs hne (by omega)
    simp [mark_unread, hs, hne, hnorm, alistGet, alistUpd, List.find?]

/-- C3: starting from an empty unread cell, `N` calls of `mark_unread`
for slug `s` leave a counts map whose single entry maps `s` to `N`; one
subsequent `mark_read` removes the key entirely (a lookup misses) and
deletes the whole cache entry (`Py.none`) instead of storing an empty
map. -/
theorem unread_mark_counts (s : String) (ttl : Int) (N : Nat)
    (hs : pyStrip s = s) (hne : s ≠ "") (hN : 1 ≤ N) :
    _normalize_counts (markUnreadN s ttl N Py.none) = [(s, (N : Int))]
    ∧ alistGet (_normalize_counts (markUnreadN s ttl N Py.none)) s
        = Option.some (N : Int)
    ∧ (mark_read s ttl (markUnreadN s ttl N Py.none)).2 = Py.none
    ∧ alistGet ((mark_read s ttl (markUnreadN s ttl N Py.none)).1.counts) s
        = Option.none := by
  obtain ⟨n, rfl⟩ : ∃ n, N = n + 1 := ⟨N - 1, by omega⟩
  have hstore := markUnreadN_closed_form s ttl hs hne n
  have hnorm := normalize_encode_singleton s ((n : Int) + 1) hs hne (by omega)
  have hcast : ((n : Int) + 1) = ((n + 1 : Nat) : Int) := by push_cast; ring
  refine ⟨?_, ?_, ?_, ?_⟩
  · rw [hstore, hnorm, hcast]
  · rw [hstore, hnorm, hcast]
    simp [alistGet, List.find?]
  · rw [hstore]
    simp [mark_read, hs, hne, hnorm]
  · rw [hstore]
    simp [mark_read, hs, hne, hnorm, alistGet]

/-- C3 witness: two unread marks for room1 store count 2; the following
read deletes the cell and the key misses. -/
theorem unread_mark_counts_witness :
    _normalize_counts (markUnreadN "room1" 100 2 Py.none) = [("room1", 2)]
    ∧ (mark_read "room1" 100 (markUnreadN "room1" 100 2 Py.none)).2 = Py.none
    ∧ alistGet ((mark_read "room1" 100 (markUnreadN "room1" 100 2 Py.none)).1.counts)
        "room1" = Option.none :=
  ⟨(unread_mark_counts "room1" 100 2 (by decide) (by decide) (by decide)).1,
   (unread_mark_counts "room1" 100 2 (by decide) (by decide) (by decide)).2.2.1,
   (unread_mark_counts "room1" 100 2 (by decide) (by decide) (by decide)).2.2.2⟩

/-- Running further sends within the window from a live bucket counts
them all as successes and adds them to the counter. -/
theorem rlRun_within_window (limit window R : Int) :
    ∀ (ts : List Int) (c : Int), 0 < c → c + ts.length ≤ limit →
      (∀ r ∈ ts, r < R) →
      rlRun limit window ts (Option.some ⟨c, R⟩)
        = (List.replicate ts.length false, Option.some ⟨c + ts.length, R⟩) := by
  intro ts
  induction ts with
  | nil => intro c _ _ _; simp [rlRun]
  | cons t rest ih =>
    intro c hc hlen hts
    have ht : t < R := hts t (List.mem_cons_self t rest)
    have hcount : ¬ limit ≤ c := by
      have : (rest.length : Int) ≥ 0 := Int.ofNat_nonneg rest.length
      simp only [List.length_cons] at hlen
      push_cast at hlen
      omega
    have hstep : _rate_limited limit window t (Option.some ⟨c, R⟩)
        = (false, Option.some ⟨c + 1, R⟩) := by
      simp [_rate_limited, not_le.mpr ht, hcount]
    have htail := ih (c + 1) (by omega)
      (by simp only [List.length_cons] at hlen; push_cast at hlen ⊢; omega)
      (fun r hr => hts r (List.mem_cons_of_mem t hr))
    simp only [rlRun, hstep, htail, List.length_cons, List.replicate_succ,
      Prod.mk.injEq]
    refine ⟨trivial, ?_⟩
    push_cast
    congr 2
    all_goals omega

/-- C4: starting with an empty rate-limit cell, the first `limit` sends
within one window (the first at `t`, the rest before `t + window`) all
succeed and leave the bucket at `(limit, t + window)`; a further send
before `t + window` is reported limited, receives the `rate_limited`
error event instead of being accepted (so nothing is persisted or
published) and leaves the cell untouched; a send at or after
`t + window` succeeds and restarts the counter at 1. -/
theorem chat_rate_limit_window (limit window t : Int) (rest : List Int)
    (hlen : (rest.length : Int) + 1 = limit)
    (hrest : ∀ r ∈ rest, r < t + window) :
    rlRun limit window (t :: rest) Option.none
      = (List.replicate (rest.length + 1) false,
         Option.some ⟨limit, t + window⟩)
    ∧ (∀ u, u < t + window →
        _rate_limited limit window u (Option.some ⟨limit, t + window⟩)
          = (true, Option.some ⟨limit, t + window⟩))
    ∧ (∀ (maxLen : Nat) (user : UserM) (obj : List (PyKey × Py))
        (raw : String) (u : Int),
        user.is_authenticated = true →
        pyGetD obj (PyKey.str "message") (Py.str "") = Py.str raw →
        ¬ pyStrip raw = "" → (pyStrip raw).length ≤ maxLen →
        u < t + window →
        receiveStep maxLen limit window user true u
            (Option.some ⟨limit, t + window⟩) (Option.some obj)
          = (RecvOutcome.errorEvent "rate_limited",
             Option.some ⟨limit, t + window⟩))
    ∧ (∀ v, t + window ≤ v →
        _rate_limited limit window v (Option.some ⟨limit, t + window⟩)
          = (false, Option.some ⟨1, v + window⟩)) := by
  have hlimited : ∀ u, u < t + window →
      _rate_limited limit window u (Option.some ⟨limit, t + window⟩)
        = (true, Option.some ⟨limit, t + window⟩) := by
    intro u hu
    simp [_rate_limited, not_le.mpr hu]
  refine ⟨?_, hlimited, ?_, ?_⟩
  · have hfirst : _rate_limited limit window t Option.none
        = (false, Option.some ⟨1, t + window⟩) := by
      simp [_rate_limited]
    have htail := rlRun_within_window limit window (t + window) rest 1
      (by omega) (by omega) hrest
    simp only [rlRun, hfirst, htail, List.replicate_succ, Prod.mk.injEq]
    refine ⟨trivial, ?_⟩
    congr 2
    all_goals omega
  · intro maxLen user obj raw u hauth hobj hblank hshort hu
    simp [receiveStep, hobj, hblank, not_lt.mpr hshort, hauth,
      hlimited u hu]
  · intro v hv
    simp [_rate_limited, hv]

/-- C4 witness: with limit 3 and window 10, sends at 0, 1 and 2 all
pass leaving the bucket full; a fourth send at 5 is limited and the
receive path answers `rate_limited` without accepting; a send at 12
restarts the counter at 1. -/
theorem chat_rate_limit_window_witness :
    rlRun 3 10 [0, 1, 2] Option.none
      = ([false, false, false], Option.some ⟨3, 10⟩)
    ∧ _rate_limited 3 10 5 (Option.some ⟨3, 10⟩)
      = (true, Option.some ⟨3, 10⟩)
    ∧ receiveStep 1000 3 10 ⟨7, "alice", true⟩ true 5 (Option.some ⟨3, 10⟩)
        (Option.some [(PyKey.str "message", Py.str "hi")])
      = (RecvOutcome.errorEvent "rate_limited", Option.some ⟨3, 10⟩)
    ∧ _rate_limited 3 10 12 (Option.some ⟨3, 10⟩)
      = (false, Option.some ⟨1, 22⟩) := by
  have h := chat_rate_limit_window 3 10 0 [1, 2] (by decide)
    (by intro r hr; fin_cases hr <;> decide)
  refine ⟨?_, ?_, ?_, ?_⟩
  · have := h.1
    simpa using this
  · simpa using h.2.1 5 (by decide)
  · simpa using h.2.2.1 1000 ⟨7, "alice", true⟩
      [(PyKey.str "message", Py.str "hi")] "hi" 5 rfl rfl (by decide)
      (by decide) (by decide)
  · simpa using h.2.2.2 12 (by decide)

/-- A filter that drops at least one list element cannot return the
list unchanged. -/
theorem filter_ne_self_of_dropped {α : Type} (p : α → Bool) (l : List α)
    (x : α) (hx : x ∈ l) (hpx : p x = false) : ¬ l.filter p = l := by
  intro h
  have hx' : x ∈ l.filter p := by rw [h]; exact hx
  have hpt := List.of_mem_filter hx'
  rw [hpx] at hpt
  exact Bool.noConfusion hpt

/-- C8: in both presence snapshot readers, an entry with positive count
survives exactly when its last activity is within the TTL; a surviving
entry with non-positive count is always inside its grace window; the
surviving entries are exactly those passing the keep condition (every
other entry is evicted); and whenever at least one entry is evicted the
cleaned map is written back.  The guest counter equals the number of
surviving guest entries. -/
theorem presence_snapshot_eviction (ttl now : Int)
    (data gdata : List (String × PresenceEntry)) :
    (∀ u e, (u, e) ∈ data → 0 < e.count →
      ((u, e) ∈ (_get_online ttl now data).2.1 ↔ now - e.last_seen ≤ ttl))
    ∧ (∀ u e, (u, e) ∈ (_get_online ttl now data).2.1 →
        e.count ≤ 0 → now < e.grace_until)
    ∧ (∀ u e, (u, e) ∈ (_get_online ttl now data).2.1 ↔
        ((u, e) ∈ data ∧ keepPresence ttl now e = true))
    ∧ ((∃ p ∈ data, keepPresence ttl now p.2 = false) →
        (_get_online ttl now data).2.2 = true)
    ∧ (∀ u e, (u, e) ∈ gdata → 0 < e.count →
      ((u, e) ∈ (_get_guest_count ttl now gdata).2.1 ↔ now - e.last_seen ≤ ttl))
    ∧ (∀ u e, (u, e) ∈ (_get_guest_count ttl now gdata).2.1 →
        e.count ≤ 0 → now < e.grace_until)
    ∧ (∀ u e, (u, e) ∈ (_get_guest_count ttl now gdata).2.1 ↔
        ((u, e) ∈ gdata ∧ keepPresence ttl now e = true))
    ∧ ((∃ p ∈ gdata, keepPresence ttl now p.2 = false) →
        (_get_guest_count ttl now gdata).2.2 = true)
    ∧ (_get_guest_count ttl now gdata).1
        = (_get_guest_count ttl now gdata).2.1.length := by
  have hkeep_pos : ∀ e : PresenceEntry, 0 < e.count →
      (keepPresence ttl now e = true ↔ now - e.last_seen ≤ ttl) := by
    intro e he
    simp [keepPresence, he, not_le.mpr he]
  have hkeep_nonpos : ∀ e : PresenceEntry, keepPresence ttl now e = true →
      e.count ≤ 0 → now < e.grace_until := by
    intro e hk he
    rcases (by simpa [keepPresence] using hk :
        (0 < e.count ∧ now - e.last_seen ≤ ttl) ∨
          (e.count ≤ 0 ∧ ¬ e.grace_until = 0 ∧ now < e.grace_until ∧
            now - e.last_seen ≤ ttl)) with h | h
    · omega
    · exact h.2.2.1
  refine ⟨?_, ?_, ?_, ?_, ?_, ?_, ?_, ?_, rfl⟩
  · intro u e hmem hpos
    rw [show (_get_online ttl now data).2.1
        = data.filter (fun p => keepPresence ttl now p.2) from rfl,
      List.mem_filter]
    simp [hmem, hkeep_pos e hpos]
  · intro u e hmem he
    have := (List.mem_filter.mp hmem).2
    exact hkeep_nonpos e this he
  · intro u e
    rw [show (_get_online ttl now data).2.1
        = data.filter (fun p => keepPresence ttl now p.2) from rfl,
      List.mem_filter]
  · rintro ⟨p, hp, hpk⟩
    have := filter_ne_self_of_dropped (fun q => keepPresence ttl now q.2)
      data p hp hpk
    simp [_get_online, this]
  · intro u e hmem hpos
    rw [show (_get_guest_count ttl now gdata).2.1
        = gdata.filter (fun p => keepPresence ttl now p.2) from rfl,
      List.mem_filter]
    simp [hmem, hkeep_pos e hpos]
  · intro u e hmem he
    have := (List.mem_filter.mp hmem).2
    exact hkeep_nonpos e this he
  · intro u e
    rw [show (_get_guest_count ttl now gdata).2.1
        = gdata.filter (fun p => keepPresence ttl now p.2) from rfl,
      List.mem_filter]
  · rintro ⟨p, hp, hpk⟩
    have := filter_ne_self_of_dropped (fun q => keepPresence ttl now q.2)
      gdata p hp hpk
    simp [_get_guest_count, this]

/-- C8 witness: on a concrete presence map, a fresh entry stays, a stale
positive entry and an expired-grace entry are evicted, the map is
written back, and the guest count matches the surviving entries. -/
theorem presence_snapshot_eviction_witness :
    (("u1", (⟨1, 50, 0, Option.none⟩ : PresenceEntry))
      ∈ (_get_online 90 100
          [("u1", ⟨1, 50, 0, Option.none⟩), ("u2", ⟨1, 1, 0, Option.none⟩),
           ("u3", ⟨0, 99, 105, Option.none⟩)]).2.1)
    ∧ (_get_online 90 100
        [("u1", ⟨1, 50, 0, Option.none⟩), ("u2", ⟨1, 1, 0, Option.none⟩),
         ("u3", ⟨0, 99, 105, Option.none⟩)]).2.2 = true
    ∧ (_get_guest_count 90 100
        [("g1", ⟨1, 50, 0, Option.none⟩), ("g2", ⟨0, 99, 100, Option.none⟩)]).2.2
        = true := by
  have h := presence_snapshot_eviction 90 100
    [("u1", ⟨1, 50, 0, Option.none⟩), ("u2", ⟨1, 1, 0, Option.none⟩),
     ("u3", ⟨0, 99, 105, Option.none⟩)]
    [("g1", ⟨1, 50, 0, Option.none⟩), ("g2", ⟨0, 99, 100, Option.none⟩)]
  refine ⟨?_, ?_, ?_⟩
  · exact (h.1 "u1" ⟨1, 50, 0, Option.none⟩ (by simp) (by decide)).mpr (by decide)
  · exact h.2.2.2.1 ⟨("u2", ⟨1, 1, 0, Option.none⟩), by simp, by decide⟩
  · exact h.2.2.2.2.2.2.2.1 ⟨("g2", ⟨0, 99, 100, Option.none⟩), by simp, by decide⟩

/-- Membership after a Python dict assignment: either the entry was
already present, or it is the assigned pair. -/
theorem alistUpd_mem (l : List (String × Int)) (k : String) (v : Int)
    (p : String × Int) (hp : p ∈ alistUpd l k v) : p ∈ l ∨ p = (k, v) := by
  unfold alistUpd at hp
  by_cases h : l.any (fun q => q.1 = k)
  · rw [if_pos h] at hp
    rcases List.mem_map.mp hp with ⟨q, hq, hqe⟩
    by_cases hk : q.1 = k
    · right
      rw [← hqe]
      simp [hk]
    · left
      rw [← hqe]
      simpa [hk] using hq
  · rw [if_neg h] at hp
    rcases List.mem_append.mp hp with h1 | h1
    · exact Or.inl h1
    · exact Or.inr (List.mem_singleton.mp h1)

/-- Fold invariant of the dict branch of `_normalize_counts`: every
entry of the result either came from the accumulator or descends from a
dict entry with a non-blank stripped key and a positive `int()` value. -/
theorem normDictAux_mem (entries : List (PyKey × Py)) :
    ∀ (acc : List (String × Int)) (p : String × Int),
      p ∈ normDictAux entries acc →
      p ∈ acc ∨ ∃ k raw, (k, raw) ∈ entries ∧ pyStrip (pyKeyStr k) = p.1 ∧
        ¬ p.1 = "" ∧ pyToInt raw = Option.some p.2 ∧ 0 < p.2 := by
  induction entries with
  | nil => intro acc p hp; exact Or.inl hp
  | cons e rest ih =>
    intro acc p hp
    obtain ⟨k, raw⟩ := e
    simp only [normDictAux] at hp
    by_cases hs : pyStrip (pyKeyStr k) = ""
    · rw [if_pos hs] at hp
      rcases ih acc p hp with h | ⟨k', raw', hk', hr⟩
      · exact Or.inl h
      · exact Or.inr ⟨k', raw', List.mem_cons_of_mem _ hk', hr⟩
    · rw [if_neg hs] at hp
      rcases hint : pyToInt raw with _ | c
      · rw [hint] at hp
        rcases ih acc p hp with h | ⟨k', raw', hk', hr⟩
        · exact Or.inl h
        · exact Or.inr ⟨k', raw', List.mem_cons_of_mem _ hk', hr⟩
      · rw [hint] at hp
        have hp' : p ∈ (if c ≤ 0 then normDictAux rest acc
            else normDictAux rest (alistUpd acc (pyStrip (pyKeyStr k)) c)) := hp
        by_cases hc : c ≤ 0
        · rw [if_pos hc] at hp'
          rcases ih acc p hp' with h | ⟨k', raw', hk', hr⟩
          · exact Or.inl h
          · exact Or.inr ⟨k', raw', List.mem_cons_of_mem _ hk', hr⟩
        · rw [if_neg hc] at hp'
          rcases ih _ p hp' with h | ⟨k', raw', hk', hr⟩
          · rcases alistUpd_mem acc (pyStrip (pyKeyStr k)) c p h with h2 | h2
            · exact Or.inl h2
            · refine Or.inr ⟨k, raw, List.mem_cons_self _ _, ?_, ?_, ?_, ?_⟩
              · rw [h2]
              · rw [h2]; exact hs
              · rw [h2]; exact hint
              · rw [h2]; omega
          · exact Or.inr ⟨k', raw', List.mem_cons_of_mem _ hk', hr⟩

/-- Fold invariant of `_normalize_slugs`: result members are
accumulator members or non-blank stripped strings. -/
theorem normalize_slugs_aux_mem (xs : List Py) :
    ∀ (acc : List String) (s : String), s ∈ _normalize_slugs_aux xs acc →
      s ∈ acc ∨ ¬ s = "" := by
  induction xs with
  | nil => intro acc s hs; exact Or.inl hs
  | cons item rest ih =>
    intro acc s hs
    match item with
    | Py.str s0 =>
      simp only [_normalize_slugs_aux] at hs
      by_cases h : pyStrip s0 = "" ∨ acc.contains (pyStrip s0)
      · rw [if_pos h] at hs
        exact ih acc s hs
      · rw [if_neg h] at hs
        rcases ih _ s hs with h1 | h1
        · rcases List.mem_append.mp h1 with h2 | h2
          · exact Or.inl h2
          · right
            rw [List.mem_singleton.mp h2]
            intro hempty
            exact h (Or.inl hempty)
        · exact Or.inr h1
    | Py.none => exact ih acc s hs
    | Py.int n => exact ih acc s hs
    | Py.list items => exact ih acc s hs
    | Py.dict es => exact ih acc s hs

/-- C9: whatever shape the stored value has, the unread operations
interpret it through `_normalize_counts` as a map of non-blank slugs
with strictly positive counts: every result entry is non-blank and
positive; `get_unread_state` and `get_unread_slugs` expose exactly that
map; `mark_unread` and `mark_read` update exactly that map; a stored
list yields count 1 per surviving slug; any shape that is neither dict
nor list yields the empty map; and every entry surviving from a dict
descends from a dict entry whose stripped key is the slug and whose
value converts to that positive count — so blank keys, unconvertible
values and non-positive counts are dropped. -/
theorem normalize_counts_spec (v : Py) :
    (∀ p ∈ _normalize_counts v, ¬ p.1 = "" ∧ 0 < p.2)
    ∧ (get_unread_state v).counts = _normalize_counts v
    ∧ (get_unread_state v).slugs = (_normalize_counts v).map Prod.fst
    ∧ get_unread_slugs v = (_normalize_counts v).map Prod.fst
    ∧ (∀ ttl s, ¬ pyStrip s = "" →
        (mark_unread s ttl v).1.counts
          = alistUpd (_normalize_counts v) (pyStrip s)
              ((alistGet (_normalize_counts v) (pyStrip s)).getD 0 + 1))
    ∧ (∀ ttl s, ¬ pyStrip s = "" →
        (mark_read s ttl v).1.counts
          = (_normalize_counts v).filter (fun p => ¬ p.1 = pyStrip s))
    ∧ (∀ xs, v = Py.list xs → ∀ p ∈ _normalize_counts v, p.2 = 1)
    ∧ ((∀ es, ¬ v = Py.dict es) → (∀ xs, ¬ v = Py.list xs) →
        _normalize_counts v = [])
    ∧ (∀ es p, v = Py.dict es → p ∈ _normalize_counts v →
        ∃ k raw, (k, raw) ∈ es ∧ pyStrip (pyKeyStr k) = p.1 ∧
          pyToInt raw = Option.some p.2 ∧ 0 < p.2) := by
  refine ⟨?_, rfl, rfl, rfl, ?_, ?_, ?_, ?_, ?_⟩
  · intro p hp
    match v with
    | Py.dict es =>
      rcases normDictAux_mem es [] p hp with h | ⟨k, raw, _, _, hblank, _, hpos⟩
      · exact absurd h (List.not_mem_nil p)
      · exact ⟨hblank, hpos⟩
    | Py.list xs =>
      rcases List.mem_map.mp hp with ⟨s, hsmem, hse⟩
      rcases normalize_slugs_aux_mem xs [] s hsmem with h | h
      · exact absurd h (List.not_mem_nil s)
      · constructor
        · rw [← hse]; exact h
        · rw [← hse]; exact Int.zero_lt_one
    | Py.none => exact absurd hp (List.not_mem_nil p)
    | Py.int n => exact absurd hp (List.not_mem_nil p)
    | Py.str s => exact absurd hp (List.not_mem_nil p)
  · intro ttl s hs
    simp [mark_unread, hs]
  · intro ttl s hs
    simp [mark_read, hs]
  · rintro xs rfl p hp
    rcases List.mem_map.mp hp with ⟨s, _, hse⟩
    rw [← hse]
  · intro hdict hlist
    match v with
    | Py.dict es => exact absurd rfl (hdict es)
    | Py.list xs => exact absurd rfl (hlist xs)
    | Py.none => rfl
    | Py.int n => rfl
    | Py.str s => rfl
  · rintro es p rfl hp
    rcases normDictAux_mem es [] p hp with h | ⟨k, raw, hk, hstrip, _, hint, hpos⟩
    · exact absurd h (List.not_mem_nil p)
    · exact ⟨k, raw, hk, hstrip, hint, hpos⟩

/-- C9 witness: a mixed dict with a blank key, a zero count, an int key
with a string count and a None key normalizes to the expected positive
map; a plain int normalizes to the empty map; a list of slugs counts 1
each. -/
theorem normalize_counts_spec_witness :
    _normalize_counts (Py.int 5) = []
    ∧ (∀ p ∈ _normalize_counts
        (Py.dict [(PyKey.str " a ", Py.int 3), (PyKey.str "b", Py.int 0),
                  (PyKey.int 7, Py.str "2"), (PyKey.none, Py.int 1),
                  (PyKey.str "", Py.int 9)]),
        ¬ p.1 = "" ∧ 0 < p.2)
    ∧ _normalize_counts
        (Py.dict [(PyKey.str " a ", Py.int 3), (PyKey.str "b", Py.int 0),
                  (PyKey.int 7, Py.str "2"), (PyKey.none, Py.int 1),
                  (PyKey.str "", Py.int 9)])
        = [("a", 3), ("7", 2), ("None", 1)] :=
  ⟨(normalize_counts_spec (Py.int 5)).2.2.2.2.2.2.2.1
      (fun es h => Py.noConfusion h) (fun xs h => Py.noConfusion h),
   (normalize_counts_spec
      (Py.dict [(PyKey.str " a ", Py.int 3), (PyKey.str "b", Py.int 0),
                (PyKey.int 7, Py.str "2"), (PyKey.none, Py.int 1),
                (PyKey.str "", Py.int 9)])).1,
   by decide⟩

/-- Appending a matching element behind a miss makes it the find
result. -/
theorem find?_append_singleton {α : Type} (p : α → Bool) (l : List α) (r : α)
    (hl : l.find? p = Option.none) (hr : p r = true) :
    (l ++ [r]).find? p = Option.some r := by
  induction l with
  | nil => simp [List.find?, hr]
  | cons x xs ih =>
    cases hpx : p x
    · simp only [List.find?, hpx] at hl
      simp only [List.cons_append, List.find?, hpx]
      exact ih hl
    · simp [List.find?, hpx] at hl

/-- Mapping a hit-to-`r3` update over a list with a find hit makes `r3`
the find result. -/
theorem find?_map_update {α : Type} (p : α → Bool) (r3 : α) (l : List α) (a : α)
    (hfind : l.find? p = Option.some a) (hr3 : p r3 = true) (g : α → α)
    (hgt : ∀ x, p x = true → g x = r3) (hgf : ∀ x, p x = false → g x = x) :
    (l.map g).find? p = Option.some r3 := by
  induction l with
  | nil => simp [List.find?] at hfind
  | cons x xs ih =>
    cases hpx : p x
    · rw [List.map_cons, hgf x hpx]
      simp only [List.find?, hpx] at hfind ⊢
      exact ih hfind
    · rw [List.map_cons, hgt x hpx]
      simp [List.find?, hr3]

/-- A pointwise-identity map is the identity. -/
theorem map_id_of_mem {α : Type} (g : α → α) (l : List α)
    (h : ∀ x ∈ l, g x = x) : l.map g = l := by
  induction l with
  | nil => rfl
  | cons x xs ih =>
    rw [List.map_cons, h x (List.mem_cons_self x xs),
      ih (fun y hy => h y (List.mem_cons_of_mem x hy))]

/-- The self-heal step never touches the pair key. -/
theorem repair_pair_key (r : RoomM) (s n : String) :
    (_repair_direct_room r s n).direct_pair_key = r.direct_pair_key := by
  simp only [_repair_direct_room]
  split_ifs <;> rfl

/-- The self-heal step always leaves a DIRECT room. -/
theorem repair_kind (r : RoomM) (s n : String) :
    (_repair_direct_room r s n).kind = RoomKind.DIRECT := by
  simp only [_repair_direct_room]
  split_ifs <;> simp_all

/-- The self-heal step leaves a non-empty slug when handed one. -/
theorem repair_slug_ne (r : RoomM) (s n : String) (hs : ¬ s = "") :
    ¬ (_repair_direct_room r s n).slug = "" := by
  simp only [_repair_direct_room]
  split_ifs <;> simp_all

/-- The self-heal step leaves a non-empty name when handed one. -/
theorem repair_name_ne (r : RoomM) (s n : String) (hn : ¬ n = "") :
    ¬ (_repair_direct_room r s n).name = "" := by
  simp only [_repair_direct_room]
  split_ifs <;> simp_all

/-- A room that already satisfies all three repairs is a fixpoint of the
self-heal step. -/
theorem repair_fixpoint (r : RoomM) (s n : String)
    (hk : r.kind = RoomKind.DIRECT) (hs : ¬ r.slug = "") (hn : ¬ r.name = "") :
    _repair_direct_room r s n = r := by
  simp only [_repair_direct_room]
  rw [if_pos hk, if_neg hs, if_neg hn]

/-- The generated direct slug always starts with dm_ and is non-empty. -/
theorem direct_room_slug_ne_empty (digest : String → String) (pk : String) :
    ¬ _direct_room_slug digest pk = "" := by
  intro h
  have hlen := congrArg String.length h
  rw [_direct_room_slug, String.length_append] at hlen
  have h3 : "dm_".length = 3 := rfl
  have h0 : "".length = 0 := rfl
  rw [h3, h0] at hlen
  omega

/-- The default direct-room display name is never empty. -/
theorem default_direct_name_ne_empty (u v : String) :
    ¬ (u ++ " - " ++ v) = "" := by
  intro h
  have hlen := congrArg String.length h
  rw [String.length_append, String.length_append] at hlen
  have h3 : " - ".length = 3 := rfl
  have h0 : "".length = 0 := rfl
  rw [h3, h0] at hlen
  omega

/-- After a room with the pair key has been appended behind a miss, a
further `_create_or_get_direct_room` call finds it, reports no
creation, and leaves the table unchanged (given the room is a repair
fixpoint). -/
theorem create_or_get_after_create (rooms : List RoomM) (a b : UserM)
    (pk slug : String) (base : RoomM)
    (hbase_pk : base.direct_pair_key = Option.some pk)
    (hbase_fix : _repair_direct_room base slug
      (a.username ++ " - " ++ b.username) = base)
    (hfound : rooms.find? (fun r => r.direct_pair_key = Option.some pk)
      = Option.none) :
    _create_or_get_direct_room (rooms ++ [base]) a b pk slug
      = ((base, false), rooms ++ [base]) := by
  have hpbase : (fun r : RoomM => decide (r.direct_pair_key = Option.some pk))
      base = true := by simp [hbase_pk]
  have hfound2 := find?_append_singleton
    (fun r : RoomM => decide (r.direct_pair_key = Option.some pk))
    rooms base hfound hpbase
  have hmap : (rooms ++ [base]).map
      (fun x => if x.direct_pair_key = Option.some pk then base else x)
      = rooms ++ [base] := by
    apply map_id_of_mem
    intro x hx
    rcases List.mem_append.mp hx with hx1 | hx1
    · have hnx := List.find?_eq_none.mp hfound x hx1
      simp only [decide_eq_true_eq] at hnx
      simp only [if_neg hnx]
    · rw [List.mem_singleton.mp hx1]
      exact if_pos hbase_pk
  simp only [_create_or_get_direct_room, hfound2, Option.getD_some, hbase_fix,
    hmap]

/-- After the hit-update map of a reuse call, a further
`_create_or_get_direct_room` call finds the repaired room, reports no
creation, and leaves the table unchanged. -/
theorem create_or_get_after_reuse (rooms : List RoomM) (a b : UserM)
    (pk slug : String) (r3 r0 : RoomM)
    (hr3pk : r3.direct_pair_key = Option.some pk)
    (hfix : _repair_direct_room r3 slug
      (a.username ++ " - " ++ b.username) = r3)
    (hfound : rooms.find? (fun r => r.direct_pair_key = Option.some pk)
      = Option.some r0) :
    _create_or_get_direct_room
      (rooms.map (fun x => if x.direct_pair_key = Option.some pk then r3 else x))
      a b pk slug
      = ((r3, false),
         rooms.map (fun x => if x.direct_pair_key = Option.some pk
           then r3 else x)) := by
  have hfound2 : (rooms.map (fun x =>
      if x.direct_pair_key = Option.some pk then r3 else x)).find?
      (fun r => r.direct_pair_key = Option.some pk) = Option.some r3 := by
    apply find?_map_update _ _ rooms r0 hfound
    · simpa using hr3pk
    · intro x hx
      simp only [decide_eq_true_eq] at hx
      simp only [if_pos hx]
    · intro x hx
      have hx' := of_decide_eq_false hx
      simp only [if_neg hx']
  have hmap2 : (rooms.map (fun x =>
      if x.direct_pair_key = Option.some pk then r3 else x)).map
      (fun x => if x.direct_pair_key = Option.some pk then r3 else x)
      = rooms.map (fun x =>
        if x.direct_pair_key = Option.some pk then r3 else x) := by
    apply map_id_of_mem
    intro y hy
    rcases List.mem_map.mp hy with ⟨x, _, rfl⟩
    by_cases hpx : x.direct_pair_key = Option.some pk
    · simp only [if_pos hpx, if_pos hr3pk]
    · simp only [if_neg hpx]
  simp only [_create_or_get_direct_room, hfound2, Option.getD_some, hfix, hmap2]

/-- Calling `_create_or_get_direct_room` twice with the same pair key
and slug returns the same room the second time, reports it as not
created, and leaves the room table unchanged. -/
theorem create_or_get_direct_twice (rooms : List RoomM) (a b : UserM)
    (pk slug : String) (hslug : ¬ slug = "") :
    (_create_or_get_direct_room
        (_create_or_get_direct_room rooms a b pk slug).2 a b pk slug).1.1
      = (_create_or_get_direct_room rooms a b pk slug).1.1
    ∧ (_create_or_get_direct_room
        (_create_or_get_direct_room rooms a b pk slug).2 a b pk slug).1.2 = false
    ∧ (_create_or_get_direct_room
        (_create_or_get_direct_room rooms a b pk slug).2 a b pk slug).2
      = (_create_or_get_direct_room rooms a b pk slug).2 := by
  have hname := default_direct_name_ne_empty a.username b.username
  rcases hfound : rooms.find? (fun r => r.direct_pair_key = Option.some pk)
    with _ | r0
  · -- created on the first call
    have hrep : _repair_direct_room
        (⟨slug, a.username ++ " - " ++ b.username, RoomKind.DIRECT,
          Option.some pk, Option.some a.id⟩ : RoomM) slug
        (a.username ++ " - " ++ b.username)
        = (⟨slug, a.username ++ " - " ++ b.username, RoomKind.DIRECT,
            Option.some pk, Option.some a.id⟩ : RoomM) :=
      repair_fixpoint _ _ _ rfl hslug hname
    have hc1 : _create_or_get_direct_room rooms a b pk slug
        = (((⟨slug, a.username ++ " - " ++ b.username, RoomKind.DIRECT,
              Option.some pk, Option.some a.id⟩ : RoomM), true),
           rooms ++ [(⟨slug, a.username ++ " - " ++ b.username,
              RoomKind.DIRECT, Option.some pk, Option.some a.id⟩ : RoomM)]) := by
      simp only [_create_or_get_direct_room, hfound, Option.getD_none, hrep]
    have hc2 := create_or_get_after_create rooms a b pk slug
      (⟨slug, a.username ++ " - " ++ b.username, RoomKind.DIRECT,
        Option.some pk, Option.some a.id⟩ : RoomM) rfl hrep hfound
    simp [hc1, hc2]
  · -- reused on the first call
    have hp0 : r0.direct_pair_key = Option.some pk := by
      have h := List.find?_some hfound
      simpa using h
    have hr3pk : (_repair_direct_room r0 slug
        (a.username ++ " - " ++ b.username)).direct_pair_key
        = Option.some pk := by
      rw [repair_pair_key, hp0]
    have hfix : _repair_direct_room
        (_repair_direct_room r0 slug (a.username ++ " - " ++ b.username)) slug
        (a.username ++ " - " ++ b.username)
        = _repair_direct_room r0 slug (a.username ++ " - " ++ b.username) :=
      repair_fixpoint _ _ _ (repair_kind r0 _ _)
        (repair_slug_ne r0 _ _ hslug) (repair_name_ne r0 _ _ hname)
    have hc1 : _create_or_get_direct_room rooms a b pk slug
        = ((_repair_direct_room r0 slug (a.username ++ " - " ++ b.username),
            false),
           rooms.map (fun x => if x.direct_pair_key = Option.some pk
             then _repair_direct_room r0 slug
               (a.username ++ " - " ++ b.username) else x)) := by
      simp only [_create_or_get_direct_room, hfound, Option.getD_some]
    have hc2 := create_or_get_after_reuse rooms a b pk slug
      (_repair_direct_room r0 slug (a.username ++ " - " ++ b.username)) r0
      hr3pk hfix hfound
    simp [hc1, hc2]

/-- C6: the direct-room start is idempotent for a pair of distinct
users: the second call returns the same room slug, reuses the existing
room instead of creating a second one (created flag false, room table
unchanged), and the pair key is the order-insensitive sorted low:high
pair, the slug a function of it. -/
theorem direct_room_start_idempotent (digest : String → String)
    (rooms : List RoomM) (a b : UserM) (hne : a.id ≠ b.id) :
    ((directRoomStart digest (directRoomStart digest rooms a b).2 a b).1.1
      = (directRoomStart digest rooms a b).1.1)
    ∧ (directRoomStart digest (directRoomStart digest rooms a b).2 a b).1.2
      = false
    ∧ (directRoomStart digest (directRoomStart digest rooms a b).2 a b).2
      = (directRoomStart digest rooms a b).2
    ∧ _direct_pair_key a.id b.id = _direct_pair_key b.id a.id := by
  have _ := hne
  have h := create_or_get_direct_twice rooms a b
    (_direct_pair_key a.id b.id)
    (_direct_room_slug digest (_direct_pair_key a.id b.id))
    (direct_room_slug_ne_empty digest (_direct_pair_key a.id b.id))
  refine ⟨?_, ?_, ?_, ?_⟩
  · simp only [directRoomStart]
    rw [h.1]
  · simp only [directRoomStart]
    rw [h.2.1]
  · simp only [directRoomStart]
    rw [h.2.2]
  · rw [_direct_pair_key, _direct_pair_key, min_comm, max_comm]

/-- C6 witness: two consecutive starts for the same distinct user pair
on an empty room table agree on the slug, the second is a reuse, and
the table is unchanged. -/
theorem direct_room_start_idempotent_witness :
    ((directRoomStart (fun s => s)
        (directRoomStart (fun s => s) [] ⟨2, "bob", true⟩ ⟨1, "alice", true⟩).2
        ⟨2, "bob", true⟩ ⟨1, "alice", true⟩).1.1
      = (directRoomStart (fun s => s) [] ⟨2, "bob", true⟩
          ⟨1, "alice", true⟩).1.1)
    ∧ (directRoomStart (fun s => s)
        (directRoomStart (fun s => s) [] ⟨2, "bob", true⟩ ⟨1, "alice", true⟩).2
        ⟨2, "bob", true⟩ ⟨1, "alice", true⟩).1.2 = false
    ∧ _direct_pair_key 2 1 = _direct_pair_key 1 2 :=
  ⟨(direct_room_start_idempotent (fun s => s) [] ⟨2, "bob", true⟩
      ⟨1, "alice", true⟩ (by decide)).1,
   (direct_room_start_idempotent (fun s => s) [] ⟨2, "bob", true⟩
      ⟨1, "alice", true⟩ (by decide)).2.1,
   (direct_room_start_idempotent (fun s => s) [] ⟨2, "bob", true⟩
      ⟨1, "alice", true⟩ (by decide)).2.2.2⟩

end ChatApp
